import Mathlib

/-!
# sni-finder: a shallow embedding of `main.go`

The scanner walks a block of IPv4 addresses, dials each one, performs a TLS
handshake and reports the hosts that look like HTTP/2 servers with a plausible
certificate name.  This file embeds the decision logic of `main.go`:

* the string helpers of the Go standard library that the program calls
  (`strings.Count`, `strings.HasPrefix`, `strings.Contains`, `strings.Split`,
  `strings.Join`, `strings.Fields`, `fmt.Sprintf` with the verbs used);
* `isInvalidCertificate`, `extractDomain`, `saveDomain`, `Print`;
* the address cursor `nextIP` over `net.IP` and `math/big`;
* `Scan`, as a function from the outcome of dial and handshake to the trace of
  effects it performs;
* the generation loop of `main`.

Go strings are modelled as the list of their Unicode code points (the program
only searches for ASCII separators, which in UTF-8 text occur at the same places
byte by byte and code point by code point), `net.IP` as a list of bytes,
`big.Int` as `Int`.  A run-time panic is the result `none`.
-/

namespace SniFinder

/-! ## Strings -/

/-- A Go string, as the sequence of its Unicode code points. -/
abbrev Str := List Char

/-- Go `strings.HasPrefix(s, p)`. -/
def HasPrefix (s p : Str) : Bool := p.isPrefixOf s

/-- Scanning loop of `strings.Count`: `skip` is the number of characters of the
last match still to be stepped over, so that matches do not overlap. -/
def countLoop (substr : Str) : Nat → Str → Nat
  | _, [] => 0
  | skip + 1, _ :: cs => countLoop substr skip cs
  | 0, c :: cs =>
    if substr.isPrefixOf (c :: cs) then 1 + countLoop substr (substr.length - 1) cs
    else countLoop substr 0 cs

/-- Go `strings.Count(s, substr)`: the number of non-overlapping instances of
`substr` in `s`; for the empty `substr` it is one more than the number of code
points of `s`. -/
def Count (s substr : Str) : Nat :=
  if substr = [] then s.length + 1 else countLoop substr 0 s

/-- Go `strings.Contains(s, substr)`. -/
def Contains : Str → Str → Bool
  | [], substr => substr.isEmpty
  | c :: cs, substr => substr.isPrefixOf (c :: cs) || Contains cs substr

/-- Scanning loop of `strings.Split` for a non-empty separator: `cur` is the
piece being collected, `skip` the number of separator characters still to be
stepped over. -/
def splitLoop (sep : Str) : Nat → Str → Str → List Str
  | _, [], cur => [cur]
  | skip + 1, _ :: cs, cur => splitLoop sep skip cs cur
  | 0, c :: cs, cur =>
    if sep.isPrefixOf (c :: cs) then cur :: splitLoop sep (sep.length - 1) cs []
    else splitLoop sep 0 cs (cur ++ [c])

/-- Go `strings.Split(s, sep)`: the pieces of `s` between the occurrences of
`sep`; with an empty `sep` the string is cut after every code point. -/
def Split (s sep : Str) : List Str :=
  if sep = [] then s.map (fun c => [c]) else splitLoop sep 0 s []

/-- Go `strings.Join(elems, sep)`. -/
def Join : List Str → Str → Str
  | [], _ => []
  | [e], _ => e
  | e :: f :: es, sep => e ++ sep ++ Join (f :: es) sep

/-- Go `unicode.IsSpace`: the Latin-1 cases and the `White_Space` table. -/
def isSpace (c : Char) : Bool :=
  let n := c.toNat
  (9 ≤ n && n ≤ 13) || n == 32 || n == 0x85 || n == 0xA0 || n == 0x1680 ||
  (0x2000 ≤ n && n ≤ 0x200A) || n == 0x2028 || n == 0x2029 || n == 0x202F ||
  n == 0x205F || n == 0x3000

/-- Scanning loop of `strings.Fields`: `cur` is the field being collected. -/
def fieldsLoop : Str → Str → List Str
  | [], cur => if cur = [] then [] else [cur]
  | c :: cs, cur =>
    if isSpace c then
      (if cur = [] then fieldsLoop cs [] else cur :: fieldsLoop cs [])
    else fieldsLoop cs (cur ++ [c])

/-- Go `strings.Fields(s)`: the maximal runs of non-space characters of `s`. -/
def Fields (s : Str) : List Str := fieldsLoop s []

/-- Go `fmt.Sprintf("%-*s", width, s)`: `s` padded with spaces on the right up
to `width` code points. -/
def padRight (width : Nat) (s : Str) : Str :=
  s ++ List.replicate (width - s.length) ' '

/-- The decimal digit `d` as a character. -/
def digitChar (d : Nat) : Char := Char.ofNat (48 + d)

/-- Digit loop of the decimal rendering, most significant digit first. -/
def itoaLoop : Nat → Nat → Str → Str
  | 0, _, acc => acc
  | fuel + 1, n, acc =>
    if n < 10 then digitChar n :: acc
    else itoaLoop fuel (n / 10) (digitChar (n % 10) :: acc)

/-- Go `fmt.Sprintf("%d", n)` for a non-negative integer. -/
def itoa (n : Nat) : Str := itoaLoop (n + 1) n []

/-! ## The certificate filter -/

/-- Source `isInvalidCertificate` (main.go:323-330). -/
def isInvalidCertificate (certSubject : Str) : Bool :=
  let numPeriods := Count certSubject ".".toList
  HasPrefix certSubject "*".toList ||
    certSubject == "localhost".toList ||
    numPeriods != 1 ||
    certSubject == "invalid2.invalid".toList ||
    certSubject == "OPNsense.localdomain".toList

/-! ## Report lines and the domains file -/

/-- The effects of the scanner that the properties below observe. -/
inductive Event where
  /-- A successful `DialContext`: a TCP connection has been opened. -/
  | dialOk : Event
  /-- The deferred `conn.Close()` on the TCP connection. -/
  | connClose : Event
  /-- The deferred `c.Close()` on the TLS client. -/
  | tlsClose : Event
  /-- The call `file.WriteString(text)` on the domains file. -/
  | domainWrite (text : Str) : Event
  /-- The send `s.logChan <- logEntry`. -/
  | logSend (logEntry : Str) : Event
  deriving DecidableEq, Repr

/-- Loop of `extractDomain` over the fields, `i` the index of `part`. -/
def extractDomainLoop : Nat → List Str → Str
  | _, [] => []
  | i, part :: parts =>
    if Contains part ".".toList && !HasPrefix part "v".toList && decide (i > 0) then
      (Split part ":".toList).headD []
    else extractDomainLoop (i + 1) parts

/-- Source `extractDomain` (main.go:101-115). -/
def extractDomain (logEntry : Str) : Str :=
  extractDomainLoop 0 (Fields logEntry)

/-- Source `saveDomain` (main.go:117-126): one write on the domains file. -/
def saveDomain (domain : Str) : List Event :=
  if domain = [] then [] else [Event.domainWrite (domain ++ "\n".toList)]

/-- Source `maxIPLength` of `Print`: `len("255.255.255.255")`. -/
def maxIPLength : Nat := "255.255.255.255".toList.length

/-- Source `Scanner.Print` (main.go:71-99), as the list of its effects. -/
def Print (outStr : Str) : List Event :=
  let parts := Split outStr " ".toList
  if parts.length < 2 then []
  else
    let ipAddress := parts.headD []
    let rest := Join (parts.drop 1) " ".toList
    let formattedIP := padRight (maxIPLength - 8) ipAddress
    let logEntry := formattedIP ++ rest
    let domain := extractDomain logEntry
    (if domain ≠ [] then saveDomain domain else []) ++ [Event.logSend logEntry]

/-! ## The scan of one address -/

/-- Go `net.IP`: a slice of bytes. -/
abbrev IP := List Nat

/-- The fields of `Scanner` that the embedded functions read or write. -/
structure Scanner where
  /-- The configured port (flag `-port`). -/
  port : Str
  /-- The flag `-showFail`. -/
  showFail : Bool
  /-- The cursor `s.ip`. -/
  ip : IP
  deriving DecidableEq, Repr

/-- The fields of `tls.ConnectionState` that `Scan` reads; a peer certificate
is represented by its `Subject.CommonName`. -/
structure ConnectionState where
  Version : Nat
  NegotiatedProtocol : Str
  PeerCertificates : List Str
  deriving DecidableEq, Repr

/-- What the network answers to one scan attempt. -/
inductive Outcome where
  /-- `DialContext` returns the error whose text is `err`. -/
  | dialFailed (err : Str) : Outcome
  /-- The dial succeeds, with `remoteIP` the text of `remoteAddr.IP.String()`
  and `port` the remote port; `c.Handshake()` returns the error `err`. -/
  | handshakeFailed (remoteIP : Str) (port : Nat) (err : Str) : Outcome
  /-- Dial and handshake succeed, `state` is `c.ConnectionState()`. -/
  | connected (remoteIP : Str) (port : Nat) (state : ConnectionState) : Outcome
  deriving DecidableEq, Repr

/-- Source `TlsVersions` (main.go:35-40); a missing key reads as `""`. -/
def TlsVersions (version : Nat) : Str :=
  if version = 0x0301 then "1.0".toList
  else if version = 0x0302 then "1.1".toList
  else if version = 0x0303 then "1.2".toList
  else if version = 0x0304 then "1.3".toList
  else []

/-- Source `line` of `Scan` (main.go:282): `"%s:%d"` of the remote address,
followed by a tab. -/
def remoteLine (remoteIP : Str) (port : Nat) : Str :=
  remoteIP ++ ":".toList ++ itoa port ++ "\t".toList

/-- Source `Scan`, the part after a successful handshake (main.go:301-320). -/
def scanReport (s : Scanner) (line : Str) (state : ConnectionState) : List Event :=
  let alpn := if state.NegotiatedProtocol = [] then "  ".toList else state.NegotiatedProtocol
  if s.showFail || (state.Version == 0x0304 && alpn == "h2".toList) then
    let certSubject := state.PeerCertificates.headD []
    if isInvalidCertificate certSubject then []
    else
      Print (" ".toList ++ line ++ "---- TLS v".toList ++ TlsVersions state.Version ++
        "    ALPN: ".toList ++ alpn ++ " ----    ".toList ++ certSubject ++ ":".toList ++ s.port)
  else []

/-- Source `Scanner.Scan` (main.go:260-321): the trace of effects of one scan
attempt whose dial and handshake end as `o` says.  The deferred calls run when
the function returns, the last deferred first. -/
def Scan (s : Scanner) (o : Outcome) : List Event :=
  match o with
  | Outcome.dialFailed err =>
    if s.showFail then Print ("Dial failed: ".toList ++ err) else []
  | Outcome.handshakeFailed remoteIP port err =>
    [Event.dialOk] ++
      (if s.showFail then
        Print (remoteLine remoteIP port ++ " - TLS handshake failed: ".toList ++ err)
       else []) ++
      [Event.connClose]
  | Outcome.connected remoteIP port state =>
    [Event.dialOk] ++ scanReport s (remoteLine remoteIP port) state ++
      [Event.tlsClose, Event.connClose]

/-! ## The address cursor -/

/-- Go `v4InV6Prefix`. -/
def v4InV6Prefix : IP := [0, 0, 0, 0, 0, 0, 0, 0, 0, 0, 0xff, 0xff]

/-- Go `net.IPv4(a, b, c, d)`: the 16-byte form of an IPv4 address, which is
what `net.ParseIP` returns for dotted-quad text. -/
def IPv4 (a b c d : Nat) : IP := v4InV6Prefix ++ [a, b, c, d]

/-- Source `zeroIP` (main.go:33). -/
def zeroIP : IP := IPv4 0 0 0 0

/-- Source `maxIP` (main.go:34). -/
def maxIP : IP := IPv4 255 255 255 255

/-- Go `IP.To4`; `none` is the nil slice. -/
def To4 (ip : IP) : Option IP :=
  if ip.length = 4 then some ip
  else if ip.length = 16 ∧ ip.take 12 = v4InV6Prefix then some (ip.drop 12)
  else none

/-- Go `IP.Equal`. -/
def Equal (ip x : IP) : Bool :=
  if ip.length = x.length then ip == x
  else if ip.length = 4 ∧ x.length = 16 then x.take 12 == v4InV6Prefix && ip == x.drop 12
  else if ip.length = 16 ∧ x.length = 4 then ip.take 12 == v4InV6Prefix && ip.drop 12 == x
  else false

/-- Go `big.Int.SetBytes`: the big-endian unsigned value of a byte slice. -/
def SetBytes (buf : List Nat) : Int :=
  ((buf.foldl (fun acc b => acc * 256 + b) 0 : Nat) : Int)

/-- Digit loop of `Bytes`, most significant byte first. -/
def bytesLoop : Nat → Nat → List Nat → List Nat
  | 0, _, acc => acc
  | fuel + 1, n, acc =>
    if n = 0 then acc else bytesLoop fuel (n / 256) (n % 256 :: acc)

/-- Go `big.Int.Bytes`: the absolute value as a big-endian byte slice without
leading zero bytes. -/
def Bytes (x : Int) : List Nat := bytesLoop x.natAbs x.natAbs []

/-- Go `make([]byte, n)`: `n` zero bytes; a negative `n` panics (`none`). -/
def make (n : Int) : Option (List Nat) :=
  if n < 0 then none else some (List.replicate n.toNat 0)

/-- Source `ipb` of `nextIP` after the addition or subtraction
(main.go:241-246). -/
def advance (s : Scanner) (increment : Bool) : Int :=
  let ipb := SetBytes ((To4 s.ip).getD [])
  if increment then ipb + 1 else ipb - 1

/-- Source `Scanner.nextIP` (main.go:237-258).  The outer `none` is the run-time
panic of `make`; otherwise the result is the returned address (`none` for nil)
and the scanner after the call. -/
def nextIP (s : Scanner) (increment : Bool) : Option (Option IP × Scanner) :=
  let b := Bytes (advance s increment)
  match make (4 - (b.length : Int)) with
  | none => none
  | some zeros =>
    let b := zeros ++ b
    if Equal b zeroIP || Equal b maxIP then some (none, s)
    else some (some b, { s with ip := b })

/-- Source `numIPsToCheck` (main.go:27). -/
def numIPsToCheck : Nat := 10000

/-- The state of the generation loop of `main`: the scanner, the count of
`wg.Add(1)` calls and the contents sent to `ipChan`, oldest first. -/
structure GenState where
  s : Scanner
  wgAdds : Nat
  ipChan : List IP
  deriving DecidableEq, Repr

/-- Source generation loop of `main` (main.go:159-166), run for `n` rounds;
`none` when a call of `nextIP` panics. -/
def generate : Nat → GenState → Option GenState
  | 0, g => some g
  | n + 1, g =>
    match nextIP g.s true with
    | none => none
    | some (none, s1) => generate n { g with s := s1 }
    | some (some ip, s1) =>
      generate n { s := s1, wgAdds := g.wgAdds + 1, ipChan := g.ipChan ++ [ip] }

/-- A sequence of `nextIP` calls with the given directions; the returned
addresses in call order and the final scanner, `none` when a call panics. -/
def runCursor : List Bool → Scanner → Option (List (Option IP) × Scanner)
  | [], s => some ([], s)
  | d :: ds, s =>
    match nextIP s d with
    | none => none
    | some (r, s1) =>
      match runCursor ds s1 with
      | none => none
      | some (rs, s2) => some (r :: rs, s2)


/-! ## Observations on traces and addresses -/

/-- The lines a trace sends on the log channel, in order. -/
def logLines : List Event → List Str
  | [] => []
  | Event.logSend l :: es => l :: logLines es
  | _ :: es => logLines es

/-- The texts a trace writes to the domains file, in order. -/
def domainWrites : List Event → List Str
  | [] => []
  | Event.domainWrite t :: es => t :: domainWrites es
  | _ :: es => domainWrites es

/-- The number of connections a trace opens. -/
def dials (trace : List Event) : Nat := trace.count Event.dialOk

/-- The number of `Close` calls that reach the TCP connection: the direct
`conn.Close()` calls and the `c.Close()` calls of the TLS client, which closes
its underlying connection. -/
def closeCalls (trace : List Event) : Nat :=
  trace.count Event.connClose + trace.count Event.tlsClose

/-- Go `IP.String()` of the IPv4 address with the bytes `a`, `b`, `c`, `d`. -/
def dottedQuad (a b c d : Nat) : Str :=
  itoa a ++ ".".toList ++ itoa b ++ ".".toList ++ itoa c ++ ".".toList ++ itoa d

/-- The 4-byte address whose big-endian integer value is `n`. -/
def ipOfNat (n : Nat) : IP :=
  [n / 16777216 % 256, n / 65536 % 256, n / 256 % 256, n % 256]

/-! ## Facts about the string helpers -/

theorem isPrefixOf_singleton (a : Char) (s : Str) :
    [a].isPrefixOf s = decide (s.head? = some a) := by
  cases s with
  | nil => simp [List.isPrefixOf]
  | cons c cs =>
    simp only [List.isPrefixOf, List.head?_cons, Option.some.injEq, Bool.and_true]
    by_cases h : c = a
    · subst h; simp
    · have h2 : ¬ a = c := fun e => h e.symm
      simp [h, h2]

theorem countLoop_singleton (a : Char) (s : Str) : countLoop [a] 0 s = s.count a := by
  induction s with
  | nil => simp [countLoop]
  | cons c cs ih =>
    simp only [countLoop, isPrefixOf_singleton, List.head?_cons, List.length_singleton,
      Nat.sub_self, ih, List.count_cons]
    by_cases h : c = a
    · subst h; simp; omega
    · simp [h]

theorem Count_singleton (a : Char) (s : Str) : Count s [a] = s.count a := by
  simp [Count, countLoop_singleton]

theorem Contains_singleton (a : Char) (s : Str) : Contains s [a] = decide (a ∈ s) := by
  induction s with
  | nil => simp [Contains]
  | cons c cs ih =>
    simp only [Contains, isPrefixOf_singleton, List.head?_cons, ih, List.mem_cons]
    by_cases h : c = a
    · subst h; simp
    · have h2 : ¬ a = c := fun e => h e.symm
      simp [h, h2]

theorem HasPrefix_singleton (a : Char) (s : Str) :
    HasPrefix s [a] = decide (s.head? = some a) := by
  simp [HasPrefix, isPrefixOf_singleton]

theorem splitLoop_ne_nil (sep : Str) (k : Nat) (s cur : Str) : splitLoop sep k s cur ≠ [] := by
  induction s generalizing k cur with
  | nil => simp [splitLoop]
  | cons c cs ih =>
    cases k with
    | zero =>
      simp only [splitLoop]
      split
      · simp
      · exact ih _ _
    | succ k => simp only [splitLoop]; exact ih _ _

theorem splitLoop_singleton_length (a : Char) (s cur : Str) :
    (splitLoop [a] 0 s cur).length = s.count a + 1 := by
  induction s generalizing cur with
  | nil => simp [splitLoop]
  | cons c cs ih =>
    simp only [splitLoop, isPrefixOf_singleton, List.head?_cons, List.length_singleton,
      Nat.sub_self, List.count_cons]
    by_cases h : c = a
    · subst h; simp [ih]
    · simp [h, ih]

theorem splitLoop_singleton_append (a : Char) (w rest cur : Str) (h : a ∉ w) :
    splitLoop [a] 0 (w ++ a :: rest) cur = (cur ++ w) :: splitLoop [a] 0 rest [] := by
  induction w generalizing cur with
  | nil => simp [splitLoop, isPrefixOf_singleton]
  | cons c cs ih =>
    simp only [List.mem_cons, not_or] at h
    have hc : ¬ c = a := fun e => h.1 e.symm
    simp [splitLoop, isPrefixOf_singleton, hc, ih _ h.2]

theorem Join_cons_of_ne_nil (e : Str) (l : List Str) (sep : Str) (h : l ≠ []) :
    Join (e :: l) sep = e ++ sep ++ Join l sep := by
  cases l with
  | nil => exact absurd rfl h
  | cons f es => simp [Join]

theorem Join_splitLoop_singleton (a : Char) (s cur : Str) :
    Join (splitLoop [a] 0 s cur) [a] = cur ++ s := by
  induction s generalizing cur with
  | nil => simp [splitLoop, Join]
  | cons c cs ih =>
    simp only [splitLoop, isPrefixOf_singleton, List.head?_cons, List.length_singleton,
      Nat.sub_self]
    by_cases h : c = a
    · subst h
      simp [Join_cons_of_ne_nil _ _ _ (splitLoop_ne_nil _ _ _ _), ih]
    · simp [h, ih]

theorem fieldsLoop_append_of_no_space (w rest cur : Str) (h : ∀ c ∈ w, isSpace c = false) :
    fieldsLoop (w ++ rest) cur = fieldsLoop rest (cur ++ w) := by
  induction w generalizing cur with
  | nil => simp
  | cons c cs ih =>
    have hc : isSpace c = false := h c (List.mem_cons_self _ _)
    have hcs : ∀ x ∈ cs, isSpace x = false := fun x hx => h x (List.mem_cons_of_mem _ hx)
    simp [fieldsLoop, hc, ih _ hcs]

theorem fieldsLoop_head (s cur : Str) (h : cur ≠ []) :
    ∃ w rest, fieldsLoop s cur = (cur ++ w) :: rest := by
  induction s generalizing cur with
  | nil => exact ⟨[], [], by simp [fieldsLoop, h]⟩
  | cons c cs ih =>
    by_cases hc : isSpace c = true
    · exact ⟨[], fieldsLoop cs [], by simp [fieldsLoop, hc, h]⟩
    · obtain ⟨w, rest, hw⟩ := ih (cur ++ [c]) (by simp)
      exact ⟨c :: w, rest, by simp [fieldsLoop, hc, hw]⟩

theorem Split_singleton (a : Char) (x : Str) : Split x [a] = splitLoop [a] 0 x [] := by
  simp [Split]

theorem saveDomain_of_ne (d : Str) (h : d ≠ []) :
    saveDomain d = [Event.domainWrite (d ++ "\n".toList)] := by
  simp [saveDomain, h]

/-- What `Print` does: nothing for a text without a space, otherwise one send on
the log channel, preceded by at most one write on the domains file. -/
theorem Print_cases (x : Str) :
    (' ' ∉ x ∧ Print x = []) ∨
    (' ' ∈ x ∧ ∃ e, Print x = [Event.logSend e] ∨
      ∃ d, d ≠ [] ∧ Print x = [Event.domainWrite (d ++ "\n".toList), Event.logSend e]) := by
  by_cases hx : ' ' ∈ x
  · right
    refine ⟨hx, ?_⟩
    have hlen : ¬ (splitLoop [' '] 0 x []).length < 2 := by
      rw [splitLoop_singleton_length]
      have := List.count_pos_iff.mpr hx
      omega
    have hs : " ".toList = [' '] := rfl
    simp only [Print, hs, Split_singleton, hlen, if_false]
    split
    · next hd => exact ⟨_, Or.inr ⟨_, hd, by rw [saveDomain_of_ne _ hd]; rfl⟩⟩
    · exact ⟨_, Or.inl rfl⟩
  · left
    refine ⟨hx, ?_⟩
    have hlen : (splitLoop [' '] 0 x []).length < 2 := by
      rw [splitLoop_singleton_length, List.count_eq_zero_of_not_mem hx]
      omega
    simp [Print, Split_singleton, hlen]

/-- The log entry and the effects of `Print` on a text that starts with a
space: the address column is empty and is padded to seven spaces. -/
theorem Print_space_cons (x : Str) :
    Print (' ' :: x) =
      (if extractDomain (List.replicate 7 ' ' ++ x) ≠ [] then
        saveDomain (extractDomain (List.replicate 7 ' ' ++ x)) else []) ++
      [Event.logSend (List.replicate 7 ' ' ++ x)] := by
  have hsplit : splitLoop [' '] 0 (' ' :: x) [] = [] :: splitLoop [' '] 0 x [] := by
    simp [splitLoop, isPrefixOf_singleton]
  have hlen : ¬ (([] : Str) :: splitLoop [' '] 0 x []).length < 2 := by
    rw [List.length_cons, splitLoop_singleton_length]
    omega
  have hj : Join (splitLoop [' '] 0 x []) [' '] = x := by
    have h := Join_splitLoop_singleton ' ' x []
    simpa using h
  have hpad : padRight (maxIPLength - 8) [] = List.replicate 7 ' ' := by decide
  have hs : " ".toList = [' '] := rfl
  simp only [Print, hs, Split_singleton, hsplit, hlen, if_false, List.headD_cons, List.drop_one,
    List.tail_cons, hj, hpad]

theorem logLines_Print (x : Str) : logLines (Print x) ≠ [] ↔ ' ' ∈ x := by
  rcases Print_cases x with ⟨h, hp⟩ | ⟨h, e, hp | ⟨d, _, hp⟩⟩ <;> simp [hp, h, logLines]

theorem dials_Print (x : Str) : dials (Print x) = 0 := by
  rcases Print_cases x with ⟨_, hp⟩ | ⟨_, e, hp | ⟨d, _, hp⟩⟩ <;> simp [hp, dials]

theorem closeCalls_Print (x : Str) : closeCalls (Print x) = 0 := by
  rcases Print_cases x with ⟨_, hp⟩ | ⟨_, e, hp | ⟨d, _, hp⟩⟩ <;> simp [hp, closeCalls]

theorem logLines_append (t u : List Event) : logLines (t ++ u) = logLines t ++ logLines u := by
  induction t with
  | nil => rfl
  | cons e es ih => cases e <;> simp [logLines, ih]

/-! ## The certificate filter (C1) -/

/-- C1: `isInvalidCertificate` accepts a name (returns false) exactly when the
name has exactly one period, does not start with an asterisk and is neither of
the two denylisted names; it rejects `*.example.com`, `localhost`, `a.b.c`,
the two denylisted names and the empty string, and accepts `good.example`. -/
theorem isInvalidCertificate_eq_false_iff (cn : Str) :
    (isInvalidCertificate cn = false ↔
      (cn.count '.' = 1 ∧ cn.head? ≠ some '*' ∧
        cn ≠ "invalid2.invalid".toList ∧ cn ≠ "OPNsense.localdomain".toList)) ∧
    isInvalidCertificate "*.example.com".toList = true ∧
    isInvalidCertificate "localhost".toList = true ∧
    isInvalidCertificate "a.b.c".toList = true ∧
    isInvalidCertificate "invalid2.invalid".toList = true ∧
    isInvalidCertificate "OPNsense.localdomain".toList = true ∧
    isInvalidCertificate [] = true ∧
    isInvalidCertificate "good.example".toList = false := by
  refine ⟨?_, by decide, by decide, by decide, by decide, by decide, by decide, by decide⟩
  have hdot : ".".toList = ['.'] := rfl
  have hstar : "*".toList = ['*'] := rfl
  simp only [isInvalidCertificate, hdot, hstar, Count_singleton, HasPrefix_singleton,
    Bool.or_eq_false_iff, decide_eq_false_iff_not, bne_eq_false_iff_eq, beq_eq_false_iff_ne,
    ne_eq]
  constructor
  · rintro ⟨⟨⟨⟨h1, _⟩, h3⟩, h4⟩, h5⟩
    exact ⟨h3, h1, h4, h5⟩
  · rintro ⟨h3, h1, h4, h5⟩
    refine ⟨⟨⟨⟨h1, ?_⟩, h3⟩, h4⟩, h5⟩
    intro h
    rw [h] at h3
    revert h3
    decide

/-! ## The report gate and the failure paths (C2, C3) -/

/-- C2: after a successful handshake, `Scan` sends a report line exactly when
(`showFail` is set, or the version is 0x0304 and the negotiated protocol is
`h2`) and the certificate filter accepts the common name of the first peer
certificate; with `showFail` off and an accepted name it sends exactly when the
version is 0x0304 and the protocol is `h2`. -/
theorem Scan_connected_emits_iff (s : Scanner) (remoteIP : Str) (port : Nat)
    (state : ConnectionState) :
    (logLines (Scan s (Outcome.connected remoteIP port state)) ≠ [] ↔
      ((s.showFail = true ∨
          (state.Version = 0x0304 ∧ state.NegotiatedProtocol = "h2".toList)) ∧
        isInvalidCertificate (state.PeerCertificates.headD []) = false)) ∧
    (s.showFail = false → isInvalidCertificate (state.PeerCertificates.headD []) = false →
      (logLines (Scan s (Outcome.connected remoteIP port state)) ≠ [] ↔
        (state.Version = 0x0304 ∧ state.NegotiatedProtocol = "h2".toList))) := by
  have hh2 : "h2".toList = ['h', '2'] := rfl
  have hsp : " ".toList = [' '] := rfl
  simp only [hh2]
  have halpn : ((if state.NegotiatedProtocol = [] then "  ".toList
      else state.NegotiatedProtocol) = ['h', '2']) ↔ state.NegotiatedProtocol = ['h', '2'] := by
    by_cases h : state.NegotiatedProtocol = []
    · rw [if_pos h, h]; decide
    · rw [if_neg h]
  have key : logLines (Scan s (Outcome.connected remoteIP port state)) ≠ [] ↔
      ((s.showFail = true ∨
          (state.Version = 0x0304 ∧ state.NegotiatedProtocol = ['h', '2'])) ∧
        isInvalidCertificate (state.PeerCertificates.headD []) = false) := by
    simp only [Scan, scanReport, logLines_append, hsp, hh2, List.singleton_append,
      List.cons_append, Bool.or_eq_true, Bool.and_eq_true, beq_iff_eq, halpn]
    generalize state.PeerCertificates.headD [] = cn
    by_cases hg : s.showFail = true ∨
        (state.Version = 0x0304 ∧ state.NegotiatedProtocol = ['h', '2'])
    · rw [if_pos hg]
      by_cases hc : isInvalidCertificate cn = true
      · rw [if_pos hc]
        simp [logLines, hc]
      · rw [if_neg hc, Print_space_cons]
        simp [logLines, logLines_append, hc, hg]
    · rw [if_neg hg]
      simp [logLines, hg]
  refine ⟨key, ?_⟩
  intro hs hc
  rw [key]
  exact ⟨fun h => h.1.resolve_left (by simp [hs]), fun h => ⟨Or.inr h, hc⟩⟩

/-- C3: when the dial or the handshake fails, `Scan` sends a line exactly when
`showFail` is set; with `showFail` off it sends nothing and writes nothing to
the domains file, so any number of failed dials leaves the output empty. -/
theorem Scan_failure_emits_iff (s : Scanner) (remoteIP : Str) (port : Nat) (err : Str) :
    (logLines (Scan s (Outcome.dialFailed err)) ≠ [] ↔ s.showFail = true) ∧
    (logLines (Scan s (Outcome.handshakeFailed remoteIP port err)) ≠ [] ↔ s.showFail = true) ∧
    (s.showFail = false →
      Scan s (Outcome.dialFailed err) = [] ∧
      Scan s (Outcome.handshakeFailed remoteIP port err) = [Event.dialOk, Event.connClose] ∧
      domainWrites (Scan s (Outcome.handshakeFailed remoteIP port err)) = [] ∧
      ∀ errs : List Str, (errs.map (fun e => Scan s (Outcome.dialFailed e))).flatten = []) := by
  refine ⟨?_, ?_, ?_⟩
  · by_cases h : s.showFail = true
    · have hx : ' ' ∈ "Dial failed: ".toList ++ err := by
        have : "Dial failed: ".toList = 'D' :: 'i' :: 'a' :: 'l' :: ' ' :: "failed: ".toList := rfl
        simp [this]
      simp only [Scan, h, if_true, iff_true]
      exact (logLines_Print _).mpr hx
    · simp [Scan, h, logLines]
  · by_cases h : s.showFail = true
    · have hx : ' ' ∈ remoteLine remoteIP port ++ " - TLS handshake failed: ".toList ++ err := by
        have : " - TLS handshake failed: ".toList = ' ' :: "- TLS handshake failed: ".toList := rfl
        simp [this]
      simp only [Scan, h, if_true, iff_true, logLines_append]
      have hp := (logLines_Print _).mpr hx
      intro hnil
      rw [List.append_eq_nil, List.append_eq_nil] at hnil
      exact hp hnil.1.2
    · simp [Scan, h, logLines]
  · intro h
    refine ⟨by simp [Scan, h], by simp [Scan, h], by simp [Scan, h, domainWrites], ?_⟩
    intro errs
    simp [Scan, h]

/-! ## The domains file on failure lines (C8) -/

/-- C8: with `showFail` set, a failed dial whose error text is the usual
`dial tcp 10.0.0.1:443: connect: connection refused` makes `Scan` write the
token `10.0.0.1` to the domains file before it sends the failure line. -/
theorem Scan_dialFailed_writes_domain :
    Scan ⟨"443".toList, true, [10, 0, 0, 0]⟩
        (Outcome.dialFailed "dial tcp 10.0.0.1:443: connect: connection refused".toList) =
      [Event.domainWrite "10.0.0.1\n".toList,
        Event.logSend
          "Dial   failed: dial tcp 10.0.0.1:443: connect: connection refused".toList] := by
  decide

/-! ## Release of the connection (C9) -/

/-- C9, as stated, fails after a successful handshake: one dial, and two
`Close` calls reach the TCP connection (the TLS client, then the connection). -/
theorem Scan_connected_closes_twice :
    dials (Scan ⟨"443".toList, false, [10, 0, 0, 0]⟩
      (Outcome.connected "93.184.216.34".toList 443
        ⟨0x0304, "h2".toList, ["example.com".toList]⟩)) = 1 ∧
    closeCalls (Scan ⟨"443".toList, false, [10, 0, 0, 0]⟩
      (Outcome.connected "93.184.216.34".toList 443
        ⟨0x0304, "h2".toList, ["example.com".toList]⟩)) = 2 ∧
    closeCalls (Scan ⟨"443".toList, false, [10, 0, 0, 0]⟩
      (Outcome.connected "93.184.216.34".toList 443
        ⟨0x0304, "h2".toList, ["example.com".toList]⟩)) ≠
      dials (Scan ⟨"443".toList, false, [10, 0, 0, 0]⟩
        (Outcome.connected "93.184.216.34".toList 443
          ⟨0x0304, "h2".toList, ["example.com".toList]⟩)) := by
  decide

theorem dials_scanReport (s : Scanner) (line : Str) (state : ConnectionState) :
    dials (scanReport s line state) = 0 := by
  unfold scanReport
  simp only []
  repeat' split
  all_goals first | rfl | exact dials_Print _

theorem closeCalls_scanReport (s : Scanner) (line : Str) (state : ConnectionState) :
    closeCalls (scanReport s line state) = 0 := by
  unfold scanReport
  simp only []
  repeat' split
  all_goals first | rfl | exact closeCalls_Print _

/-- C9, amended: a failed dial opens and closes nothing; after a successful dial
the trace of `Scan` starts with the dial and ends with the close of the TCP
connection, reached by one `Close` call when the handshake failed and by two
(the TLS client, then the connection itself) when the handshake succeeded,
whatever the gate and the certificate filter decide in between. -/
theorem Scan_close_calls (s : Scanner) (remoteIP : Str) (port : Nat) (err : Str)
    (state : ConnectionState) :
    (dials (Scan s (Outcome.dialFailed err)) = 0 ∧
      closeCalls (Scan s (Outcome.dialFailed err)) = 0) ∧
    (dials (Scan s (Outcome.handshakeFailed remoteIP port err)) = 1 ∧
      closeCalls (Scan s (Outcome.handshakeFailed remoteIP port err)) = 1 ∧
      ∃ t, Scan s (Outcome.handshakeFailed remoteIP port err) =
          Event.dialOk :: t ++ [Event.connClose] ∧ dials t = 0 ∧ closeCalls t = 0) ∧
    (dials (Scan s (Outcome.connected remoteIP port state)) = 1 ∧
      closeCalls (Scan s (Outcome.connected remoteIP port state)) = 2 ∧
      ∃ t, Scan s (Outcome.connected remoteIP port state) =
          Event.dialOk :: t ++ [Event.tlsClose, Event.connClose] ∧
        dials t = 0 ∧ closeCalls t = 0) := by
  have hd : ∀ t u : List Event, dials (t ++ u) = dials t + dials u := by
    intro t u; simp [dials]
  have hc : ∀ t u : List Event, closeCalls (t ++ u) = closeCalls t + closeCalls u := by
    intro t u; simp [closeCalls]; omega
  refine ⟨⟨?_, ?_⟩, ?_, ?_⟩
  · by_cases h : s.showFail = true
    · simp only [Scan, h, if_true]; exact dials_Print _
    · simp [Scan, h, dials]
  · by_cases h : s.showFail = true
    · simp only [Scan, h, if_true]; exact closeCalls_Print _
    · simp [Scan, h, closeCalls]
  · have ht : dials (if s.showFail = true then
          Print (remoteLine remoteIP port ++ " - TLS handshake failed: ".toList ++ err)
        else []) = 0 ∧
        closeCalls (if s.showFail = true then
          Print (remoteLine remoteIP port ++ " - TLS handshake failed: ".toList ++ err)
        else []) = 0 := by
      split
      · exact ⟨dials_Print _, closeCalls_Print _⟩
      · exact ⟨rfl, rfl⟩
    refine ⟨?_, ?_, _, rfl, ht.1, ht.2⟩
    · simp only [Scan, hd, ht.1]; decide
    · simp only [Scan, hc, ht.2]; decide
  · refine ⟨?_, ?_, _, rfl, dials_scanReport _ _ _, closeCalls_scanReport _ _ _⟩
    · simp only [Scan, hd, dials_scanReport]; decide
    · simp only [Scan, hc, closeCalls_scanReport]; decide

/-! ## The domain token of a passing result (C7) -/

/-- C7: the claim fails on the code for a common name that starts with `v`.  The
name `vk.com` has no white space and no colon and passes the certificate filter,
yet `extractDomain` passes over its field like the version column, returns the
empty token on the report line, and `Scan` writes nothing to the domains
file. -/
theorem extractDomain_skips_v_name :
    (∀ c ∈ "vk.com".toList, isSpace c = false ∧ c ≠ ':') ∧
    isInvalidCertificate "vk.com".toList = false ∧
    Scan ⟨"443".toList, false, [10, 0, 0, 0]⟩
        (Outcome.connected (dottedQuad 93 184 216 34) 443
          ⟨0x0304, "h2".toList, ["vk.com".toList]⟩) =
      [Event.dialOk,
        Event.logSend
          "       93.184.216.34:443\t---- TLS v1.3    ALPN: h2 ----    vk.com:443".toList,
        Event.tlsClose, Event.connClose] ∧
    extractDomain
      "       93.184.216.34:443\t---- TLS v1.3    ALPN: h2 ----    vk.com:443".toList = [] ∧
    extractDomain
      "       93.184.216.34:443\t---- TLS v1.3    ALPN: h2 ----    vk.com:443".toList ≠
        "vk.com".toList := by
  refine ⟨by decide, by decide, by decide, by decide, by decide⟩

theorem isSpace_digitChar (d : Nat) (h : d < 10) : isSpace (digitChar d) = false := by
  interval_cases d <;> decide

theorem itoaLoop_no_space (fuel n : Nat) (acc : Str) (hacc : ∀ c ∈ acc, isSpace c = false) :
    ∀ c ∈ itoaLoop fuel n acc, isSpace c = false := by
  induction fuel generalizing n acc with
  | zero => simpa [itoaLoop] using hacc
  | succ fuel ih =>
    simp only [itoaLoop]
    split
    · next hn =>
      intro c hc
      rcases List.mem_cons.mp hc with rfl | hc
      · exact isSpace_digitChar n hn
      · exact hacc c hc
    · apply ih
      intro c hc
      rcases List.mem_cons.mp hc with rfl | hc
      · exact isSpace_digitChar _ (Nat.mod_lt _ (by decide))
      · exact hacc c hc

theorem itoa_no_space (n : Nat) : ∀ c ∈ itoa n, isSpace c = false :=
  itoaLoop_no_space _ _ _ (by simp)

theorem dottedQuad_no_space (a b c d : Nat) : ∀ x ∈ dottedQuad a b c d, isSpace x = false := by
  intro x hx
  have hdot : ".".toList = ['.'] := rfl
  simp only [dottedQuad, hdot, List.mem_append, List.mem_singleton] at hx
  rcases hx with (((((h | h) | h) | h) | h) | h) | h
  · exact itoa_no_space _ x h
  · subst h; decide
  · exact itoa_no_space _ x h
  · subst h; decide
  · exact itoa_no_space _ x h
  · subst h; decide
  · exact itoa_no_space _ x h

/-- A text that ends with a space closes its last field: the fields of what
follows are found independently. -/
theorem fieldsLoop_append_of_space_end (k : Str) (sp : Char) (z cur : Str)
    (hsp : isSpace sp = true) :
    fieldsLoop (k ++ sp :: z) cur = fieldsLoop (k ++ [sp]) cur ++ fieldsLoop z [] := by
  induction k generalizing cur with
  | nil =>
    by_cases hc : cur = [] <;> simp [fieldsLoop, hsp, hc]
  | cons c cs ih =>
    by_cases hcs : isSpace c = true
    · by_cases hc : cur = [] <;> simp [fieldsLoop, hcs, hc, ih]
    · simp [fieldsLoop, hcs, ih]

/-- The fields of a line made of seven spaces, an address column `w0`, a tab, a
middle part `k` closed by a space, and a tail `z`. -/
theorem fieldsLoop_columns (w0 k z : Str) (toks : List Str)
    (hw0 : ∀ c ∈ w0, isSpace c = false) (hne : w0 ≠ [])
    (hk : fieldsLoop (k ++ [' ']) [] = toks) :
    fieldsLoop (List.replicate 7 ' ' ++ (w0 ++ ('\t' :: (k ++ ' ' :: z)))) [] =
      w0 :: (toks ++ fieldsLoop z []) := by
  have hs : isSpace ' ' = true := by decide
  have ht : isSpace '\t' = true := by decide
  have h1 : ∀ y, fieldsLoop (List.replicate 7 ' ' ++ y) [] = fieldsLoop y [] := by
    intro y
    simp [List.replicate, fieldsLoop, hs]
  rw [h1, fieldsLoop_append_of_no_space w0 _ _ hw0, List.nil_append]
  have h2 : fieldsLoop ('\t' :: (k ++ ' ' :: z)) w0 = w0 :: fieldsLoop (k ++ ' ' :: z) [] := by
    simp [fieldsLoop, ht, hne]
  rw [h2, fieldsLoop_append_of_space_end k ' ' z [] hs, hk]

/-- The fields of a report line for TLS 1.3 and `h2`: the address column `w0`,
six fixed words, then the field that starts with the common name. -/
theorem Fields_report_line (w0 cn port : Str) (hw0 : ∀ c ∈ w0, isSpace c = false)
    (hne : w0 ≠ []) (hcn : ∀ c ∈ cn, isSpace c = false) :
    ∃ w rest, Fields (List.replicate 7 ' ' ++
        (w0 ++ ('\t' :: ("---- TLS v1.3    ALPN: h2 ----   ".toList ++
          ' ' :: (cn ++ ':' :: port))))) =
      w0 :: (["----".toList, "TLS".toList, "v1.3".toList, "ALPN:".toList, "h2".toList,
        "----".toList] ++ (cn ++ ':' :: w) :: rest) := by
  have hc : isSpace ':' = false := by decide
  have h3 : fieldsLoop ("---- TLS v1.3    ALPN: h2 ----   ".toList ++ [' ']) [] =
      ["----".toList, "TLS".toList, "v1.3".toList, "ALPN:".toList, "h2".toList,
        "----".toList] := by decide
  obtain ⟨w, rest, hw⟩ := fieldsLoop_head port (cn ++ [':']) (by simp)
  refine ⟨w, rest, ?_⟩
  have h4 : fieldsLoop (cn ++ ':' :: port) [] = (cn ++ ':' :: w) :: rest := by
    rw [fieldsLoop_append_of_no_space cn _ _ hcn, List.nil_append]
    have h5 : fieldsLoop (':' :: port) cn = fieldsLoop port (cn ++ [':']) := by
      simp [fieldsLoop, hc]
    rw [h5, hw, List.append_assoc]
    rfl
  unfold Fields
  rw [fieldsLoop_columns w0 _ _ _ hw0 hne h3, h4]

/-- The six fixed words of a report line are passed over by `extractDomain`. -/
theorem extractDomainLoop_fixed_words (l : List Str) :
    extractDomainLoop 1 (["----".toList, "TLS".toList, "v1.3".toList, "ALPN:".toList,
      "h2".toList, "----".toList] ++ l) = extractDomainLoop 7 l := by
  rfl

/-- A field that starts with a name with a period, no colon and no leading `v`,
followed by a colon, yields the name when it is not the first field. -/
theorem extractDomainLoop_name (i : Nat) (cn w : Str) (rest : List Str)
    (hcol : ':' ∉ cn) (hv : cn.head? ≠ some 'v') (hdot : '.' ∈ cn) :
    extractDomainLoop (i + 1) ((cn ++ ':' :: w) :: rest) = cn := by
  have hd : ".".toList = ['.'] := rfl
  have hvv : "v".toList = ['v'] := rfl
  have hcc : ":".toList = [':'] := rfl
  have hhead : (cn ++ ':' :: w).head? = cn.head? := by
    cases cn with
    | nil => simp at hdot
    | cons c cs => rfl
  have h1 : Contains (cn ++ ':' :: w) ['.'] = true := by
    rw [Contains_singleton]
    simp [hdot]
  have h2 : HasPrefix (cn ++ ':' :: w) ['v'] = false := by
    rw [HasPrefix_singleton, hhead]
    simp [hv]
  have h3 : (Split (cn ++ ':' :: w) [':']).headD [] = cn := by
    rw [Split_singleton, splitLoop_singleton_append ':' cn w [] hcol]
    rfl
  simp only [extractDomainLoop, hd, hvv, hcc, h1, h2, h3]
  simp

theorem count_period_of_accepted (cn : Str) (h : isInvalidCertificate cn = false) :
    cn.count '.' = 1 := by
  have hdot : ".".toList = ['.'] := rfl
  simp only [isInvalidCertificate, hdot, Count_singleton, Bool.or_eq_false_iff,
    bne_eq_false_iff_eq] at h
  exact h.1.1.2

/-- The token of a report line for TLS 1.3 and `h2` in its scanned form. -/
theorem extractDomain_columns (w0 cn port : Str) (hw0 : ∀ c ∈ w0, isSpace c = false)
    (hne : w0 ≠ []) (hcn : ∀ c ∈ cn, isSpace c = false)
    (hcol : ':' ∉ cn) (hv : cn.head? ≠ some 'v') (hdot : '.' ∈ cn) :
    extractDomain (List.replicate 7 ' ' ++
        (w0 ++ ('\t' :: ("---- TLS v1.3    ALPN: h2 ----   ".toList ++
          ' ' :: (cn ++ ':' :: port))))) = cn := by
  obtain ⟨w, rest, hf⟩ := Fields_report_line w0 cn port hw0 hne hcn
  unfold extractDomain
  rw [hf]
  have h0 : ∀ l, extractDomainLoop 0 (w0 :: l) = extractDomainLoop 1 l := by
    intro l
    simp [extractDomainLoop]
  rw [h0, extractDomainLoop_fixed_words, extractDomainLoop_name 6 cn w rest hcol hv hdot]

/-- The domain token of a passing result whose name does not start with `v`:
for TLS 1.3 and `h2`, any remote IPv4 address and port, any configured port,
and a common name without white space and without colon that the certificate
filter accepts, the token `extractDomain` finds on the report line is the
common name, and `Scan` writes it to the domains file before sending the line;
on the line `93.184.216.34        ---- TLS v1.3    ALPN: h2 ----
example.com:443` the token is `example.com`. -/
theorem Scan_saves_common_name (s : Scanner) (a b c d port : Nat) (cn : Str)
    (certs : List Str) (hsp : ∀ x ∈ cn, isSpace x = false) (hcol : ':' ∉ cn)
    (hok : isInvalidCertificate cn = false) (hv : cn.head? ≠ some 'v') :
    extractDomain (List.replicate 7 ' ' ++ remoteLine (dottedQuad a b c d) port ++
        "---- TLS v1.3    ALPN: h2 ----    ".toList ++ cn ++ ":".toList ++ s.port) = cn ∧
    Scan s (Outcome.connected (dottedQuad a b c d) port
        ⟨0x0304, "h2".toList, cn :: certs⟩) =
      [Event.dialOk, Event.domainWrite (cn ++ "\n".toList),
        Event.logSend (List.replicate 7 ' ' ++ remoteLine (dottedQuad a b c d) port ++
          "---- TLS v1.3    ALPN: h2 ----    ".toList ++ cn ++ ":".toList ++ s.port),
        Event.tlsClose, Event.connClose] ∧
    extractDomain
        "93.184.216.34        ---- TLS v1.3    ALPN: h2 ----    example.com:443".toList =
      "example.com".toList := by
  have hcount := count_period_of_accepted cn hok
  have hdot : '.' ∈ cn := List.count_pos_iff.mp (by omega)
  have hcne : cn ≠ [] := by
    intro h
    rw [h] at hdot
    simp at hdot
  have hw0 : ∀ x ∈ dottedQuad a b c d ++ ':' :: itoa port, isSpace x = false := by
    intro x hx
    rcases List.mem_append.mp hx with h | h
    · exact dottedQuad_no_space _ _ _ _ x h
    · rcases List.mem_cons.mp h with rfl | h
      · decide
      · exact itoa_no_space _ x h
  have hne : dottedQuad a b c d ++ ':' :: itoa port ≠ [] := by simp
  have hcore := extractDomain_columns _ cn s.port hw0 hne hsp hcol hv hdot
  have hline : List.replicate 7 ' ' ++ remoteLine (dottedQuad a b c d) port ++
        "---- TLS v1.3    ALPN: h2 ----    ".toList ++ cn ++ ":".toList ++ s.port =
      List.replicate 7 ' ' ++ ((dottedQuad a b c d ++ ':' :: itoa port) ++
        ('\t' :: ("---- TLS v1.3    ALPN: h2 ----   ".toList ++
          ' ' :: (cn ++ ':' :: s.port)))) := by
    simp [remoteLine]
  have hout : " ".toList ++ remoteLine (dottedQuad a b c d) port ++ "---- TLS v".toList ++
        TlsVersions 0x0304 ++ "    ALPN: ".toList ++ "h2".toList ++ " ----    ".toList ++
        cn ++ ":".toList ++ s.port =
      ' ' :: ((dottedQuad a b c d ++ ':' :: itoa port) ++
        ('\t' :: ("---- TLS v1.3    ALPN: h2 ----   ".toList ++
          ' ' :: (cn ++ ':' :: s.port)))) := by
    simp [remoteLine, TlsVersions]
  refine ⟨?_, ?_, by decide⟩
  · rw [hline]
    exact hcore
  · have hgate : (s.showFail || ((0x0304 : Nat) == 0x0304 && "h2".toList == "h2".toList)) = true := by
      simp
    have halpn : (if "h2".toList = ([] : Str) then "  ".toList else "h2".toList) = "h2".toList := by
      decide
    simp only [Scan, scanReport, halpn, hgate, if_true, List.headD_cons, hok, Bool.false_eq_true,
      if_false]
    rw [hout, Print_space_cons, hcore, ← hline, if_pos hcne, saveDomain_of_ne _ hcne]
    rfl

/-! ## Facts about the address cursor -/

theorem bytesLoop_eq_digits (fuel n : Nat) (acc : List Nat) (h : n ≤ fuel) :
    bytesLoop fuel n acc = (Nat.digits 256 n).reverse ++ acc := by
  induction fuel generalizing n acc with
  | zero =>
    have hn : n = 0 := by omega
    subst hn
    simp [bytesLoop]
  | succ fuel ih =>
    simp only [bytesLoop]
    split
    · next h0 => subst h0; simp
    · next h0 =>
      have hpos : 0 < n := Nat.pos_of_ne_zero h0
      have hle : n / 256 ≤ fuel := by omega
      rw [ih _ _ hle, Nat.digits_def' (by decide) hpos]
      simp

theorem Bytes_eq_of_natAbs (x : Int) : Bytes x = (Nat.digits 256 x.natAbs).reverse := by
  simp [Bytes, bytesLoop_eq_digits]

/-- The bytes of a value below 2^32, left-padded to four bytes. -/
theorem pad_digits (m : Nat) (hm : m < 4294967296) :
    (Nat.digits 256 m).length ≤ 4 ∧
    List.replicate (4 - (Nat.digits 256 m).length) 0 ++ (Nat.digits 256 m).reverse =
      ipOfNat m := by
  by_cases h0 : m = 0
  · subst h0; simp [ipOfNat]
  rw [Nat.digits_def' (by decide) (Nat.pos_of_ne_zero h0)]
  by_cases h1 : m / 256 = 0
  · rw [h1]
    simp [ipOfNat]
    omega
  rw [Nat.digits_def' (by decide) (Nat.pos_of_ne_zero h1)]
  by_cases h2 : m / 256 / 256 = 0
  · rw [h2]
    simp [ipOfNat]
    omega
  rw [Nat.digits_def' (by decide) (Nat.pos_of_ne_zero h2)]
  by_cases h3 : m / 256 / 256 / 256 = 0
  · rw [h3]
    simp [ipOfNat]
    omega
  rw [Nat.digits_def' (by decide) (Nat.pos_of_ne_zero h3)]
  have h4 : m / 256 / 256 / 256 / 256 = 0 := by omega
  rw [h4]
  simp [ipOfNat]
  omega

theorem To4_ipOfNat (m : Nat) : To4 (ipOfNat m) = some (ipOfNat m) := by
  simp [To4, ipOfNat]

theorem Equal_ipOfNat_zeroIP (m : Nat) (hm : m < 4294967296) :
    Equal (ipOfNat m) zeroIP = decide (m = 0) := by
  simp only [Equal, ipOfNat, zeroIP, IPv4, v4InV6Prefix]
  apply Bool.eq_iff_iff.mpr
  simp
  omega

theorem Equal_ipOfNat_maxIP (m : Nat) (hm : m < 4294967296) :
    Equal (ipOfNat m) maxIP = decide (m = 4294967295) := by
  simp only [Equal, ipOfNat, maxIP, IPv4, v4InV6Prefix]
  apply Bool.eq_iff_iff.mpr
  simp
  omega

theorem SetBytes_ipOfNat (m : Nat) (hm : m < 4294967296) : SetBytes (ipOfNat m) = (m : Int) := by
  simp only [SetBytes, ipOfNat, List.foldl]
  congr 1
  omega

/-- Every 4-byte address is the address of its big-endian value. -/
theorem ipOfNat_of_bytes (a b c d : Nat) (ha : a < 256) (hb : b < 256) (hc : c < 256)
    (hd : d < 256) : ipOfNat (((a * 256 + b) * 256 + c) * 256 + d) = [a, b, c, d] := by
  simp only [ipOfNat, List.cons.injEq, and_true]
  omega

theorem ipOfNat_injective (m n : Nat) (hm : m < 4294967296) (hn : n < 4294967296)
    (h : ipOfNat m = ipOfNat n) : m = n := by
  simp only [ipOfNat, List.cons.injEq, and_true] at h
  omega

/-- What `nextIP` returns when the absolute value of the new integer is `m`,
below 2^32. -/
theorem nextIP_of_natAbs (s : Scanner) (increment : Bool) (m : Nat)
    (hm : (advance s increment).natAbs = m) (hlt : m < 4294967296) :
    nextIP s increment =
      if m = 0 ∨ m = 4294967295 then some (none, s)
      else some (some (ipOfNat m), { s with ip := ipOfNat m }) := by
  obtain ⟨hlen, hpad⟩ := pad_digits m hlt
  have hmake : make (4 - (((Nat.digits 256 m).reverse.length : Nat) : Int)) =
      some (List.replicate (4 - (Nat.digits 256 m).length) 0) := by
    have hnot : ¬ ((4 : Int) - (((Nat.digits 256 m).reverse.length : Nat) : Int) < 0) := by
      rw [List.length_reverse]; omega
    have hto : ((4 : Int) - (((Nat.digits 256 m).reverse.length : Nat) : Int)).toNat =
        4 - (Nat.digits 256 m).length := by
      rw [List.length_reverse]; omega
    simp only [make, hnot, if_false, hto]
  unfold nextIP
  simp only [Bytes_eq_of_natAbs, hm, hmake, hpad, Equal_ipOfNat_zeroIP m hlt,
    Equal_ipOfNat_maxIP m hlt, Bool.or_eq_true, decide_eq_true_eq]

theorem advance_natAbs (s : Scanner) (n : Nat) (increment : Bool)
    (h : To4 s.ip = some (ipOfNat n)) (hn : n < 4294967296) :
    (advance s increment).natAbs =
      if increment = true then n + 1 else if n = 0 then 1 else n - 1 := by
  simp only [advance, h, Option.getD_some, SetBytes_ipOfNat n hn]
  cases increment
  · simp only [Bool.false_eq_true, if_false]
    split <;> omega
  · simp only [if_true]
    omega

/-- A forward step from the address with value `n` below the last usable one. -/
theorem nextIP_forward (s : Scanner) (n : Nat) (h : To4 s.ip = some (ipOfNat n))
    (hn : n + 1 < 4294967295) :
    nextIP s true = some (some (ipOfNat (n + 1)), { s with ip := ipOfNat (n + 1) }) := by
  have hm := advance_natAbs s n true h (by omega)
  simp only [if_true] at hm
  rw [nextIP_of_natAbs s true (n + 1) hm (by omega)]
  have hc : ¬ (n + 1 = 0 ∨ n + 1 = 4294967295) := by omega
  rw [if_neg hc]

/-- A forward step from the last usable address signals exhaustion. -/
theorem nextIP_forward_last (s : Scanner) (h : To4 s.ip = some (ipOfNat 4294967294)) :
    nextIP s true = some (none, s) := by
  have hm := advance_natAbs s 4294967294 true h (by omega)
  simp only [if_true] at hm
  rw [nextIP_of_natAbs s true 4294967295 hm (by omega)]
  simp

/-- A backward step from the address with value `n`, at least 2. -/
theorem nextIP_backward (s : Scanner) (n : Nat) (h : To4 s.ip = some (ipOfNat n))
    (h2 : 2 ≤ n) (hn : n < 4294967296) :
    nextIP s false = some (some (ipOfNat (n - 1)), { s with ip := ipOfNat (n - 1) }) := by
  have hm := advance_natAbs s n false h hn
  have h0 : ¬ n = 0 := by omega
  simp only [Bool.false_eq_true, if_false, h0] at hm
  rw [nextIP_of_natAbs s false (n - 1) hm (by omega)]
  have hc : ¬ (n - 1 = 0 ∨ n - 1 = 4294967295) := by omega
  rw [if_neg hc]

/-! ## The address cursor (C4, C5, C10) -/

/-- C4: from a cursor at the IPv4 address with value `n`, neither 0.0.0.0 nor
255.255.255.255, `nextIP(true)` returns; it returns nil exactly when `n + 1` is
255.255.255.255; and when it does not return nil it returns the address `n + 1`
and moves the cursor there, and a following `nextIP(false)` returns the address
`n` and leaves the cursor at `n`. -/
theorem nextIP_round_trip (s : Scanner) (n : Nat) (h : To4 s.ip = some (ipOfNat n))
    (h0 : 0 < n) (hmax : n < 4294967295) :
    ∃ r s1, nextIP s true = some (r, s1) ∧
      (r = none ↔ n + 1 = 4294967295) ∧
      (r ≠ none →
        r = some (ipOfNat (n + 1)) ∧ s1.ip = ipOfNat (n + 1) ∧
        ∃ s2, nextIP s1 false = some (some (ipOfNat n), s2) ∧ s2.ip = ipOfNat n) := by
  by_cases hlast : n + 1 = 4294967295
  · have hn : n = 4294967294 := by omega
    subst hn
    exact ⟨none, s, nextIP_forward_last s h, by simp, fun hne => absurd rfl hne⟩
  · refine ⟨some (ipOfNat (n + 1)), { s with ip := ipOfNat (n + 1) },
      nextIP_forward s n h (by omega), by simp [hlast], fun _ => ⟨rfl, rfl, ?_⟩⟩
    have hb := nextIP_backward { s with ip := ipOfNat (n + 1) } (n + 1)
      (To4_ipOfNat _) (by omega) (by omega)
    exact ⟨_, hb, rfl⟩

/-- C5: whenever `nextIP` returns an address, it is a 4-byte address that is
neither 0.0.0.0 nor 255.255.255.255 and it is the new cursor; whenever it
returns nil, the scanner, and so the stored cursor, is unchanged. -/
theorem nextIP_never_sentinel (s : Scanner) (increment : Bool) (r : Option IP)
    (s1 : Scanner) (h : nextIP s increment = some (r, s1)) :
    (∀ a, r = some a →
      a ≠ [0, 0, 0, 0] ∧ a ≠ [255, 255, 255, 255] ∧ Equal a zeroIP = false ∧
        Equal a maxIP = false ∧ a.length = 4 ∧ s1.ip = a) ∧
    (r = none → s1 = s) := by
  unfold nextIP at h
  simp only [] at h
  cases hmk : make (4 - ((Bytes (advance s increment)).length : Int)) with
  | none => rw [hmk] at h; cases h
  | some zeros =>
    rw [hmk] at h
    simp only [] at h
    have hz : zeros.length + (Bytes (advance s increment)).length = 4 := by
      unfold make at hmk
      split at hmk
      · cases hmk
      · cases hmk
        rw [List.length_replicate]
        omega
    by_cases hc : (Equal (zeros ++ Bytes (advance s increment)) zeroIP ||
        Equal (zeros ++ Bytes (advance s increment)) maxIP) = true
    · rw [if_pos hc] at h
      cases h
      exact ⟨fun a ha => (by cases ha), fun _ => rfl⟩
    · rw [if_neg hc] at h
      cases h
      refine ⟨?_, fun hn => (by cases hn)⟩
      intro a ha
      cases ha
      rw [Bool.or_eq_true, not_or] at hc
      have hzero : Equal (zeros ++ Bytes (advance s increment)) zeroIP = false := by
        simpa using hc.1
      have hmaxi : Equal (zeros ++ Bytes (advance s increment)) maxIP = false := by
        simpa using hc.2
      refine ⟨?_, ?_, hzero, hmaxi, by rw [List.length_append]; exact hz, rfl⟩
      · intro he
        rw [he] at hzero
        revert hzero
        decide
      · intro he
        rw [he] at hmaxi
        revert hmaxi
        decide

/-- C10: from a cursor at any IPv4 address other than 255.255.255.255, every
finite sequence of `nextIP` calls in any directions runs without a panic, the
cursor is again an IPv4 address other than 255.255.255.255, and for the next
call in either direction the new integer has at most 4 bytes, so the length
passed to `make` is not negative. -/
theorem runCursor_safe (s : Scanner) (n : Nat) (h : To4 s.ip = some (ipOfNat n))
    (hmax : n < 4294967295) (dirs : List Bool) :
    ∃ rs s1 m, runCursor dirs s = some (rs, s1) ∧
      To4 s1.ip = some (ipOfNat m) ∧ m < 4294967295 ∧
      ∀ d, (Bytes (advance s1 d)).length ≤ 4 ∧
        make (4 - ((Bytes (advance s1 d)).length : Int)) ≠ none ∧ nextIP s1 d ≠ none := by
  induction dirs generalizing s n with
  | nil =>
    refine ⟨[], s, n, rfl, h, hmax, ?_⟩
    intro d
    have hm := advance_natAbs s n d h (by omega)
    have hlt : (advance s d).natAbs < 4294967296 := by
      rw [hm]; split
      · omega
      · split <;> omega
    have hlen : (Bytes (advance s d)).length ≤ 4 := by
      rw [Bytes_eq_of_natAbs, List.length_reverse]
      exact (pad_digits _ hlt).1
    refine ⟨hlen, ?_, ?_⟩
    · have hnot : ¬ ((4 : Int) - ((Bytes (advance s d)).length : Int) < 0) := by omega
      simp [make, hnot]
    · rw [nextIP_of_natAbs s d _ rfl hlt]
      split <;> simp
  | cons d ds ih =>
    have hm := advance_natAbs s n d h (by omega)
    have hlt : (advance s d).natAbs < 4294967296 := by
      rw [hm]; split
      · omega
      · split <;> omega
    have hstep := nextIP_of_natAbs s d _ rfl hlt
    by_cases hc : (advance s d).natAbs = 0 ∨ (advance s d).natAbs = 4294967295
    · rw [if_pos hc] at hstep
      obtain ⟨rs, s1, m, hrun, hto, hmm, hall⟩ := ih s n h hmax
      exact ⟨none :: rs, s1, m, by simp [runCursor, hstep, hrun], hto, hmm, hall⟩
    · rw [if_neg hc] at hstep
      have hnew : (advance s d).natAbs < 4294967295 := by omega
      obtain ⟨rs, s1, m, hrun, hto, hmm, hall⟩ :=
        ih { s with ip := ipOfNat (advance s d).natAbs } (advance s d).natAbs
          (To4_ipOfNat _) hnew
      exact ⟨some (ipOfNat (advance s d).natAbs) :: rs, s1, m,
        by simp [runCursor, hstep, hrun], hto, hmm, hall⟩

/-! ## The generation loop of `main` (C6) -/

/-- The generation loop from a cursor at the address with value `n`: it adds
the next `min m (4294967294 - n)` addresses to the queue, in order. -/
theorem generate_spec (m : Nat) (g : GenState) (n : Nat)
    (h : To4 g.s.ip = some (ipOfNat n)) (hn : n ≤ 4294967294) :
    ∃ s1, generate m g = some ⟨s1, g.wgAdds + min m (4294967294 - n),
        g.ipChan ++ (List.range' (n + 1) (min m (4294967294 - n))).map ipOfNat⟩ ∧
      To4 s1.ip = some (ipOfNat (n + min m (4294967294 - n))) := by
  induction m generalizing g n with
  | zero =>
    refine ⟨g.s, ?_, by simpa using h⟩
    cases g
    simp [generate]
  | succ m ih =>
    by_cases hlast : n = 4294967294
    · subst hlast
      have hstep := nextIP_forward_last g.s h
      obtain ⟨s1, hgen, hto⟩ := ih { g with s := g.s } 4294967294 h (by omega)
      refine ⟨s1, ?_, by simpa using hto⟩
      simp only [generate, hstep]
      simpa using hgen
    · have hstep := nextIP_forward g.s n h (by omega)
      obtain ⟨s1, hgen, hto⟩ := ih
        { s := { g.s with ip := ipOfNat (n + 1) }, wgAdds := g.wgAdds + 1,
          ipChan := g.ipChan ++ [ipOfNat (n + 1)] } (n + 1) (To4_ipOfNat _) (by omega)
      have hk : min (m + 1) (4294967294 - n) = min m (4294967294 - (n + 1)) + 1 := by omega
      refine ⟨s1, ?_, ?_⟩
      · simp only [generate, hstep]
        rw [hgen, hk, List.range'_succ]
        simp only [List.map_cons, List.append_assoc, List.singleton_append, Option.some.injEq,
          GenState.mk.injEq, true_and, and_true]
        omega
      · rw [hto, hk]
        congr 2
        omega

/-- C6: from a start address with value `n` at most 0xFFFFFFFE, the
generation loop of `main` runs to its end and has sent to the queue exactly the
addresses `n + 1`, ..., `n + k` in that order, `k` the smaller of 10000 and
`0xFFFFFFFE - n`; the queue holds no address twice, `wg.Add(1)` was called `k`
times, and `k` is below 10000 exactly when fewer than 10000 addresses are left
before the boundary. -/
theorem generate_enqueues (s : Scanner) (n : Nat) (h : To4 s.ip = some (ipOfNat n))
    (hn : n ≤ 4294967294) :
    ∃ g, generate numIPsToCheck ⟨s, 0, []⟩ = some g ∧
      g.ipChan = (List.range' (n + 1) (min 10000 (4294967294 - n))).map ipOfNat ∧
      g.wgAdds = min 10000 (4294967294 - n) ∧
      g.ipChan.length = min 10000 (4294967294 - n) ∧
      g.ipChan.Nodup ∧
      (g.ipChan.length < 10000 ↔ 4294967294 - n < 10000) := by
  obtain ⟨s1, hgen, _⟩ := generate_spec numIPsToCheck ⟨s, 0, []⟩ n h hn
  have hnum : numIPsToCheck = 10000 := rfl
  rw [hnum] at hgen
  refine ⟨_, by rw [hnum]; exact hgen, by simp, by simp, by simp, ?_, ?_⟩
  · simp only [List.nil_append]
    apply List.Nodup.map_on
    · intro x hx y hy hxy
      rw [List.mem_range'_1] at hx hy
      exact ipOfNat_injective x y (by omega) (by omega) hxy
    · exact List.nodup_range' _ _
  · simp only [List.nil_append, List.length_map, List.length_range']
    omega

/-! ## The theorems at concrete inputs -/

/-- The round trip of C4 from the cursor 10.0.0.1. -/
theorem nextIP_round_trip_witness :
    To4 (IPv4 10 0 0 1) = some (ipOfNat 167772161) ∧ 0 < 167772161 ∧
    167772161 < 4294967295 ∧
    ∃ r s1, nextIP ⟨"443".toList, false, IPv4 10 0 0 1⟩ true = some (r, s1) ∧
      (r = none ↔ 167772161 + 1 = 4294967295) ∧
      (r ≠ none →
        r = some (ipOfNat (167772161 + 1)) ∧ s1.ip = ipOfNat (167772161 + 1) ∧
        ∃ s2, nextIP s1 false = some (some (ipOfNat 167772161), s2) ∧
          s2.ip = ipOfNat 167772161) :=
  ⟨by decide, by decide, by decide,
    nextIP_round_trip ⟨"443".toList, false, IPv4 10 0 0 1⟩ 167772161 (by decide) (by decide)
      (by decide)⟩

/-- The invariant of C5 on the forward step from the cursor 10.0.0.1. -/
theorem nextIP_never_sentinel_witness :
    nextIP ⟨"443".toList, false, IPv4 10 0 0 1⟩ true =
      some (some [10, 0, 0, 2], ⟨"443".toList, false, [10, 0, 0, 2]⟩) ∧
    (∀ a, some [10, 0, 0, 2] = some a →
      a ≠ [0, 0, 0, 0] ∧ a ≠ [255, 255, 255, 255] ∧ Equal a zeroIP = false ∧
        Equal a maxIP = false ∧ a.length = 4 ∧
        (⟨"443".toList, false, [10, 0, 0, 2]⟩ : Scanner).ip = a) ∧
    ((some [10, 0, 0, 2] : Option IP) = none →
      (⟨"443".toList, false, [10, 0, 0, 2]⟩ : Scanner) =
        ⟨"443".toList, false, IPv4 10 0 0 1⟩) :=
  ⟨by decide,
    nextIP_never_sentinel ⟨"443".toList, false, IPv4 10 0 0 1⟩ true (some [10, 0, 0, 2])
      ⟨"443".toList, false, [10, 0, 0, 2]⟩ (by decide)⟩

/-- The generation loop of C6 from the start address 10.0.0.1. -/
theorem generate_enqueues_witness :
    To4 (IPv4 10 0 0 1) = some (ipOfNat 167772161) ∧ 167772161 ≤ 4294967294 ∧
    ∃ g, generate numIPsToCheck ⟨⟨"443".toList, false, IPv4 10 0 0 1⟩, 0, []⟩ = some g ∧
      g.ipChan =
        (List.range' (167772161 + 1) (min 10000 (4294967294 - 167772161))).map ipOfNat ∧
      g.wgAdds = min 10000 (4294967294 - 167772161) ∧
      g.ipChan.length = min 10000 (4294967294 - 167772161) ∧
      g.ipChan.Nodup ∧
      (g.ipChan.length < 10000 ↔ 4294967294 - 167772161 < 10000) :=
  ⟨by decide, by decide,
    generate_enqueues ⟨"443".toList, false, IPv4 10 0 0 1⟩ 167772161 (by decide) (by decide)⟩

/-- The token of the passing result 93.184.216.34:443 with the name `example.com`. -/
theorem Scan_saves_common_name_witness :
    (∀ x ∈ "example.com".toList, isSpace x = false) ∧ ':' ∉ "example.com".toList ∧
    isInvalidCertificate "example.com".toList = false ∧
    "example.com".toList.head? ≠ some 'v' ∧
    Scan ⟨"443".toList, false, IPv4 10 0 0 1⟩
        (Outcome.connected (dottedQuad 93 184 216 34) 443
          ⟨0x0304, "h2".toList, ["example.com".toList]⟩) =
      [Event.dialOk, Event.domainWrite ("example.com".toList ++ "\n".toList),
        Event.logSend (List.replicate 7 ' ' ++ remoteLine (dottedQuad 93 184 216 34) 443 ++
          "---- TLS v1.3    ALPN: h2 ----    ".toList ++ "example.com".toList ++
          ":".toList ++ "443".toList),
        Event.tlsClose, Event.connClose] :=
  ⟨by decide, by decide, by decide, by decide,
    (Scan_saves_common_name ⟨"443".toList, false, IPv4 10 0 0 1⟩ 93 184 216 34 443
      "example.com".toList [] (by decide) (by decide) (by decide) (by decide)).2.1⟩

/-- The safety of C10 from the default start 0.0.0.0, one step back, then two
steps forward. -/
theorem runCursor_safe_witness :
    To4 zeroIP = some (ipOfNat 0) ∧ 0 < 4294967295 ∧
    ∃ rs s1 m, runCursor [false, true, true] ⟨"443".toList, false, zeroIP⟩ = some (rs, s1) ∧
      To4 s1.ip = some (ipOfNat m) ∧ m < 4294967295 ∧
      ∀ d, (Bytes (advance s1 d)).length ≤ 4 ∧
        make (4 - ((Bytes (advance s1 d)).length : Int)) ≠ none ∧ nextIP s1 d ≠ none :=
  ⟨by decide, by decide,
    runCursor_safe ⟨"443".toList, false, zeroIP⟩ 0 (by decide) (by decide)
      [false, true, true]⟩

end SniFinder
